import Mathlib

/-!
Verification of the Word Stack daily-challenge server (`server.js`, two
revisions in the repository). The game logic is embedded shallowly:

* JS strings of letters become `List Char`; the pseudo-random stream returned
  by the seedrandom library becomes an abstract function `ℕ → ℚ` giving the
  successive values of `rng()` (each in `[0,1)` for a real stream).
* `Math.floor(rng() * k)` becomes `floorMul`.
* The dictionary `Set` becomes a `List String` (only membership and
  iteration are used).
* Fallible handler code returns `Except String`.
-/

namespace WordStack

/-- Fixed vowel alphabet, `VOWELS` in `server.js`. -/
def VOWELS : String := "AEIOU"

/-- Fixed consonant alphabet, `CONSONANTS` in `server.js`. -/
def CONSONANTS : String := "BCDFGHIJKLMNPQRSTVWXYZ"

/-- Model of `Math.floor(r * k)` for a stream value `r`, clamped to `ℕ`
(the JS value is non-negative whenever `0 ≤ r`). Stated over the numerator
and denominator so that the kernel can evaluate it on concrete rationals;
`floorMul_eq_floor` below proves it is exactly `⌊r * k⌋`. -/
def floorMul (r : ℚ) (k : ℕ) : ℕ := ((r.num * (k : ℤ)) / (r.den : ℤ)).toNat

/-- Model of JS string indexing `s[n]`; out of range (unreachable for
in-range stream values) a placeholder is returned. -/
def strIdx (s : String) (n : ℕ) : Char := s.toList.getD n '?'

/-- Model of JS `toUpperCase()` at the character-list level (ASCII case
mapping, as `String.toUpper` performs characterwise). -/
def upperChars (s : String) : List Char := s.toList.map Char.toUpper

/-- Model of JS `toLowerCase()` (characterwise ASCII case mapping). -/
def toLowerStr (s : String) : String := ⟨s.toList.map Char.toLower⟩

/-- Model of the JS array-destructuring swap
`[a[i], a[j]] = [a[j], a[i]]`: both cells are read from the original list,
then written back (out-of-range indices are unreachable in all uses below). -/
def swapAt (l : List Char) (i j : ℕ) : List Char :=
  (l.set i (l.getD j '?')).set j (l.getD i '?')

/-- Fisher–Yates loop of `generateLetters`: the JS loop variable `i` runs
from `n` down to `1`; the draw at step `i` is `rng` applied at stream
position `base + (n - i)`. Here the countdown argument is `i - 1`. -/
def fisherYates (rng : ℕ → ℚ) : ℕ → ℕ → List Char → List Char
  | _, 0, l => l
  | base, i + 1, l =>
    fisherYates rng (base + 1) i (swapAt l (i + 1) (floorMul (rng base) (i + 2)))

/-- First statement of `generateLetters`:
`const vowelCount = Math.floor(rng() * 3) + 3` (stream position `0`). -/
def vowelCountOf (rng : ℕ → ℚ) : ℕ := floorMul (rng 0) 3 + 3

/-- First push loop of `generateLetters`: `vowelCount` vowel draws at stream
positions `1 .. vowelCount`. -/
def vowelDraws (rng : ℕ → ℚ) (v : ℕ) : List Char :=
  (List.range v).map (fun i => strIdx VOWELS (floorMul (rng (1 + i)) VOWELS.length))

/-- Second push loop of `generateLetters`: `9 - vowelCount` consonant draws
at the following stream positions. -/
def consonantDraws (rng : ℕ → ℚ) (v : ℕ) : List Char :=
  (List.range (9 - v)).map
    (fun i => strIdx CONSONANTS (floorMul (rng (1 + v + i)) CONSONANTS.length))

/-- Function `generateLetters(rng)` from `server.js`: draw a vowel count in `3..5`,
draw that many vowels and `9 - vowelCount` consonants by index, then
Fisher–Yates shuffle the result. The stream is threaded by explicit
position: draw `0` is the vowel count, draws `1..vowelCount` the vowels,
the next `9 - vowelCount` draws the consonants, and the rest the shuffle. -/
def generateLetters (rng : ℕ → ℚ) : List Char :=
  fisherYates rng (1 + vowelCountOf rng + (9 - vowelCountOf rng))
    ((vowelDraws rng (vowelCountOf rng) ++ consonantDraws rng (vowelCountOf rng)).length - 1)
    (vowelDraws rng (vowelCountOf rng) ++ consonantDraws rng (vowelCountOf rng))

/-- Loop body of `canMakeWord`: walk the characters of the uppercased word,
consuming the first matching pool entry (`indexOf` + `splice`). -/
def canMakeWordGo : List Char → List Char → Bool
  | [], _ => true
  | c :: cs, pool => if pool.contains c then canMakeWordGo cs (pool.erase c) else false

/-- Function `canMakeWord(word, letters)` from `server.js` (identical in both
revisions): can `word` be spelled from the pool `letters`? -/
def canMakeWord (word : String) (letters : List Char) : Bool :=
  canMakeWordGo (upperChars word) letters

theorem canMakeWordGo_iff_le (cs : List Char) :
    ∀ pool : List Char,
      canMakeWordGo cs pool = true ↔ (cs : Multiset Char) ≤ (pool : Multiset Char) := by
  induction cs with
  | nil =>
    intro pool
    simp [canMakeWordGo]
  | cons c cs ih =>
    intro pool
    by_cases hc : c ∈ pool
    · rw [canMakeWordGo, if_pos (by simpa using hc), ih]
      constructor
      · intro h
        have h2 : (c ::ₘ (cs : Multiset Char)) ≤ c ::ₘ ((pool : Multiset Char).erase c) := by
          exact Multiset.cons_le_cons _ (by simpa [Multiset.coe_erase] using h)
        rwa [Multiset.cons_erase (by simpa using hc)] at h2
      · intro h
        have h2 := Multiset.erase_le_erase c h
        simpa [Multiset.coe_erase] using h2
    · rw [canMakeWordGo, if_neg (by simpa using hc)]
      simp only [Bool.false_eq_true, false_iff]
      intro h
      have hmem : c ∈ (pool : Multiset Char) := Multiset.mem_of_le h (by simp)
      exact hc (by simpa using hmem)

/-- C3: `canMakeWord` decides the consumable-multiset test: it returns true
iff the multiset of characters of the uppercased word is a sub-multiset of
the letter pool; in particular the three documented examples hold. -/
theorem canMakeWord_multiset_spec :
    (∀ (word : String) (letters : List Char),
      canMakeWord word letters = true ↔
        (upperChars word : Multiset Char) ≤ (letters : Multiset Char)) ∧
    canMakeWord "bee" ['B', 'E', 'E'] = true ∧
    canMakeWord "bee" ['B', 'E'] = false ∧
    ∀ letters : List Char, canMakeWord "" letters = true := by
  refine ⟨fun word letters => canMakeWordGo_iff_le _ _, by decide, by decide, fun _ => rfl⟩

/-- Function `isDailySetValid(letters)` from `server.js`: scan the dictionary for any
entry of length at least 5 that is formable from the letters (the JS
`for..of` over the `Set` returns true on the first hit, i.e. `any`). -/
def isDailySetValid (dict : List String) (letters : List Char) : Bool :=
  dict.any (fun word => decide (5 ≤ word.length) && canMakeWord word letters)

/-- Retry loop shared by both endpoints and both revisions:
`do { rng = seedrandom(seed + attempts); letters = generateLetters(rng);
attempts++ } while (!isDailySetValid(letters) && attempts < 10)`.
`rem` counts the regenerations the bound `attempts < 10` still allows
(`rem = 9 - attempts`); at `rem = 0` the loop exits with the last letters
whatever the validity check says, which is the JS behaviour. -/
def dailyLoopGo (sr : String → ℕ → ℚ) (dict : List String) (seed : String) :
    ℕ → ℕ → List Char × ℕ
  | 0, attempts => (generateLetters (sr (seed ++ toString attempts)), attempts + 1)
  | rem + 1, attempts =>
    let letters := generateLetters (sr (seed ++ toString attempts))
    if isDailySetValid dict letters then (letters, attempts + 1)
    else dailyLoopGo sr dict seed rem (attempts + 1)

/-- The daily-challenge letter computation (`GET /api/daily-challenge` and
the regeneration inside `POST /api/daily-challenge/score`): the loop starts
at `attempts = 0` with up to 9 further regenerations. Returns the chosen
letters and the final value of the `attempts` counter. -/
def dailyChallenge (sr : String → ℕ → ℚ) (dict : List String) (seed : String) :
    List Char × ℕ :=
  dailyLoopGo sr dict seed 9 0

theorem floorMul_eq_floor (r : ℚ) (k : ℕ) :
    floorMul r k = (Int.floor (r * (k : ℚ))).toNat := by
  have h : r * (k : ℚ) = (Int.cast (r.num * (k : ℤ)) : ℚ) / (Nat.cast r.den : ℚ) := by
    conv_lhs => rw [← Rat.num_div_den r]
    push_cast
    ring
  rw [floorMul, h, Rat.floor_intCast_div_natCast]

theorem floorMul_lt (r : ℚ) (k : ℕ) (_h0 : 0 ≤ r) (h1 : r < 1) (hk : 0 < k) :
    floorMul r k < k := by
  have hlt : r * (k : ℚ) < (k : ℚ) := by
    have h := mul_lt_mul_of_pos_right h1 (show (0 : ℚ) < (k : ℚ) by exact_mod_cast hk)
    simpa using h
  have hf : Int.floor (r * (k : ℚ)) < (k : ℤ) := Int.floor_lt.mpr (by exact_mod_cast hlt)
  rw [floorMul_eq_floor]
  omega

theorem fisherYates_congr (r₁ r₂ : ℕ → ℚ) :
    ∀ (n base : ℕ) (l : List Char),
      (∀ m < n, r₁ (base + m) = r₂ (base + m)) →
      fisherYates r₁ base n l = fisherYates r₂ base n l := by
  intro n
  induction n with
  | zero => intro base l _; rfl
  | succ i ih =>
    intro base l h
    have h0 : r₁ base = r₂ base := by simpa using h 0 (by omega)
    rw [fisherYates, fisherYates, h0]
    exact ih (base + 1) _ (fun m hm => by
      have hx := h (m + 1) (by omega)
      have he : base + 1 + m = base + (m + 1) := by omega
      rw [he]
      exact hx)

theorem vowelCountOf_le (r : ℕ → ℚ) (hr : ∀ i, 0 ≤ r i ∧ r i < 1) :
    3 ≤ vowelCountOf r ∧ vowelCountOf r ≤ 5 := by
  have h := floorMul_lt (r 0) 3 (hr 0).1 (hr 0).2 (by omega)
  unfold vowelCountOf
  omega

theorem generateLetters_congr (r₁ r₂ : ℕ → ℚ)
    (hr : ∀ i, 0 ≤ r₁ i ∧ r₁ i < 1)
    (ha : ∀ i < 18, r₁ i = r₂ i) :
    generateLetters r₁ = generateLetters r₂ := by
  have hv : vowelCountOf r₁ = vowelCountOf r₂ := by
    unfold vowelCountOf
    rw [ha 0 (by omega)]
  obtain ⟨hv3, hv5⟩ := vowelCountOf_le r₁ hr
  have hvow : vowelDraws r₁ (vowelCountOf r₁) = vowelDraws r₂ (vowelCountOf r₁) := by
    unfold vowelDraws
    refine List.map_congr_left (fun i hi => ?_)
    rw [List.mem_range] at hi
    rw [ha (1 + i) (by omega)]
  have hcons : consonantDraws r₁ (vowelCountOf r₁)
      = consonantDraws r₂ (vowelCountOf r₁) := by
    unfold consonantDraws
    refine List.map_congr_left (fun i hi => ?_)
    rw [List.mem_range] at hi
    rw [ha (1 + vowelCountOf r₁ + i) (by omega)]
  unfold generateLetters
  rw [← hv, ← hvow, ← hcons]
  refine fisherYates_congr r₁ r₂ _ _ _ (fun m hm => ?_)
  have hlen : (vowelDraws r₁ (vowelCountOf r₁)
      ++ consonantDraws r₁ (vowelCountOf r₁)).length = 9 := by
    unfold vowelDraws consonantDraws
    simp [List.length_append]
    omega
  rw [hlen] at hm
  exact ha _ (by omega)

/-- C1: the letter generation is deterministic. If two independent server
invocations seed their pseudo-random streams from the same string
`seed ++ toString attempt` (so the streams agree on the at most 18 draws
`generateLetters` consumes, as the deterministic seedrandom library
guarantees), the two generated 9-letter sequences are identical — the
output depends on nothing but the seeded stream. -/
theorem generateLetters_deterministic (sr₁ sr₂ : String → ℕ → ℚ)
    (seed : String) (attempt : ℕ)
    (hr : ∀ i, 0 ≤ sr₁ (seed ++ toString attempt) i ∧
      sr₁ (seed ++ toString attempt) i < 1)
    (ha : ∀ i < 18, sr₁ (seed ++ toString attempt) i = sr₂ (seed ++ toString attempt) i) :
    generateLetters (sr₁ (seed ++ toString attempt))
      = generateLetters (sr₂ (seed ++ toString attempt)) :=
  generateLetters_congr _ _ hr ha

/-- Closed instance of C1 at a concrete stream, seed and attempt. -/
theorem generateLetters_deterministic_witness :
    (∀ i, 0 ≤ (fun (_ : String) (_ : ℕ) => (1 : ℚ)/2) "2026-10-12" i ∧
      (fun (_ : String) (_ : ℕ) => (1 : ℚ)/2) "2026-10-12" i < 1) ∧
    generateLetters ((fun (_ : String) (_ : ℕ) => (1 : ℚ)/2) ("2026-10-12" ++ toString 0))
      = generateLetters ((fun (_ : String) (_ : ℕ) => (1 : ℚ)/2) ("2026-10-12" ++ toString 0)) := by
  constructor
  · intro i
    norm_num
  · exact generateLetters_deterministic
      (fun _ _ => (1 : ℚ)/2) (fun _ _ => (1 : ℚ)/2) "2026-10-12" 0
      (fun i => by norm_num) (fun i _ => rfl)

theorem dailyLoopGo_attempts_le (sr : String → ℕ → ℚ) (dict : List String)
    (seed : String) :
    ∀ rem attempts, (dailyLoopGo sr dict seed rem attempts).2 ≤ attempts + rem + 1 := by
  intro rem
  induction rem with
  | zero => intro attempts; rfl
  | succ r ih =>
    intro attempts
    rw [dailyLoopGo]
    cases hv : isDailySetValid dict
        (generateLetters (sr (seed ++ toString attempts))) with
    | true =>
      rw [if_pos rfl]
      omega
    | false =>
      rw [if_neg Bool.false_ne_true]
      have := ih (attempts + 1)
      omega

theorem dailyLoopGo_all_invalid (sr : String → ℕ → ℚ) (dict : List String)
    (seed : String)
    (hinv : ∀ k : ℕ, isDailySetValid dict (generateLetters (sr (seed ++ toString k))) = false) :
    ∀ rem attempts, dailyLoopGo sr dict seed rem attempts
      = (generateLetters (sr (seed ++ toString (attempts + rem))), attempts + rem + 1) := by
  intro rem
  induction rem with
  | zero => intro attempts; rfl
  | succ r ih =>
    intro attempts
    rw [dailyLoopGo, hinv attempts, if_neg Bool.false_ne_true]
    rw [ih (attempts + 1)]
    have he : attempts + 1 + r = attempts + (r + 1) := by omega
    rw [he]

/-- C2: the validity retry loop is bounded — the `attempts` counter never
passes 10 — and when no attempt produces a valid letter set (for instance
because the dictionary has no formable word of length at least 5 for any
seed) the loop still runs exactly 10 generation attempts and returns the
last-generated letter set (the one seeded with attempt 9), without any
error path. -/
theorem dailyChallenge_retry_bounded (sr : String → ℕ → ℚ) (dict : List String)
    (seed : String) :
    (dailyChallenge sr dict seed).2 ≤ 10 ∧
    ((∀ k : ℕ, isDailySetValid dict (generateLetters (sr (seed ++ toString k))) = false) →
      (dailyChallenge sr dict seed).2 = 10 ∧
      (dailyChallenge sr dict seed).1 = generateLetters (sr (seed ++ toString (9 : ℕ)))) := by
  constructor
  · have h := dailyLoopGo_attempts_le sr dict seed 9 0
    simpa [dailyChallenge] using h
  · intro hinv
    have h := dailyLoopGo_all_invalid sr dict seed hinv 9 0
    rw [dailyChallenge, h]
    exact ⟨rfl, rfl⟩

/-- Closed instance of C2: with the empty dictionary every validity check
fails, the loop runs 10 attempts and yields the attempt-9 letters. -/
theorem dailyChallenge_retry_bounded_witness :
    (∀ k : ℕ, isDailySetValid []
        (generateLetters ((fun (_ : String) (_ : ℕ) => (1 : ℚ)/2)
          ("2026-10-12" ++ toString k))) = false) ∧
    (dailyChallenge (fun _ _ => (1 : ℚ)/2) [] "2026-10-12").2 ≤ 10 ∧
    (dailyChallenge (fun _ _ => (1 : ℚ)/2) [] "2026-10-12").2 = 10 ∧
    (dailyChallenge (fun _ _ => (1 : ℚ)/2) [] "2026-10-12").1
      = generateLetters ((fun (_ : String) (_ : ℕ) => (1 : ℚ)/2)
          ("2026-10-12" ++ toString (9 : ℕ))) := by
  refine ⟨fun k => rfl, ?_⟩
  have h := dailyChallenge_retry_bounded (fun _ _ => (1 : ℚ)/2) [] "2026-10-12"
  exact ⟨h.1, h.2 (fun k => rfl)⟩

/-- Vowel test against the fixed alphabet, for stating the shape invariant. -/
def isVowelChar (c : Char) : Bool := VOWELS.toList.contains c

/-- Consonant test against the fixed alphabet. -/
def isConsChar (c : Char) : Bool := CONSONANTS.toList.contains c

theorem vowels_isVowel : ∀ c ∈ VOWELS.toList, isVowelChar c = true := by decide

theorem consonants_isCons : ∀ c ∈ CONSONANTS.toList, isConsChar c = true := by decide

theorem alphabet_upper :
    ∀ c, c ∈ VOWELS.toList ∨ c ∈ CONSONANTS.toList → c.isUpper = true := by
  intro c h
  rcases h with h | h
  · revert c
    decide
  · revert c
    decide

theorem count_set_aux :
    ∀ (l : List Char) (i : ℕ) (a x : Char), i < l.length →
      (l.set i a).count x + List.count x [l.getD i '?']
        = l.count x + List.count x [a] := by
  intro l
  induction l with
  | nil => intro i a x h; simp at h
  | cons y t ih =>
    intro i a x h
    cases i with
    | zero =>
      simp only [List.set_cons_zero, List.getD_cons_zero, List.count_cons, List.count_nil]
      omega
    | succ n =>
      have h2 : n < t.length := by simpa using h
      have hih := ih n a x h2
      simp only [List.set_cons_succ, List.getD_cons_succ, List.count_cons,
        List.count_nil] at hih ⊢
      omega

theorem swapAt_perm (l : List Char) (i j : ℕ) (hi : i < l.length) (hj : j < l.length) :
    (swapAt l i j).Perm l := by
  rw [List.perm_iff_count]
  intro x
  have hj1 : j < (l.set i (l.getD j '?')).length := by simpa using hj
  have h1 := count_set_aux (l.set i (l.getD j '?')) j (l.getD i '?') x hj1
  have h2 := count_set_aux l i (l.getD j '?') x hi
  have h3 : (l.set i (l.getD j '?')).getD j '?' = l.getD j '?' := by
    by_cases hij : i = j
    · subst hij
      rw [List.getD_eq_getElem _ _ hj1, List.getElem_set_self]
    · rw [List.getD_eq_getElem _ _ hj1, List.getElem_set_ne hij,
        ← List.getD_eq_getElem _ _ hj]
  rw [h3] at h1
  unfold swapAt
  omega

theorem fisherYates_perm (r : ℕ → ℚ) (hr : ∀ i, 0 ≤ r i ∧ r i < 1) :
    ∀ (n base : ℕ) (l : List Char), n < l.length →
      (fisherYates r base n l).Perm l := by
  intro n
  induction n with
  | zero => intro base l _; exact List.Perm.refl _
  | succ i ih =>
    intro base l hlt
    rw [fisherYates]
    have hjlt : floorMul (r base) (i + 2) < i + 2 :=
      floorMul_lt _ _ (hr base).1 (hr base).2 (by omega)
    have hswap := swapAt_perm l (i + 1) (floorMul (r base) (i + 2)) hlt (by omega)
    have hlen := hswap.length_eq
    exact (ih (base + 1) _ (by omega)).trans hswap

theorem strIdx_mem (s : String) (n : ℕ) (h : n < s.toList.length) :
    strIdx s n ∈ s.toList := by
  unfold strIdx
  rw [List.getD_eq_getElem _ _ h]
  exact List.getElem_mem h

theorem vowelDraws_mem (r : ℕ → ℚ) (hr : ∀ i, 0 ≤ r i ∧ r i < 1) (v : ℕ) :
    ∀ c ∈ vowelDraws r v, c ∈ VOWELS.toList := by
  intro c hc
  unfold vowelDraws at hc
  rw [List.mem_map] at hc
  obtain ⟨i, _, rfl⟩ := hc
  refine strIdx_mem _ _ ?_
  exact floorMul_lt (r (1 + i)) VOWELS.length (hr _).1 (hr _).2 (by decide)

theorem consonantDraws_mem (r : ℕ → ℚ) (hr : ∀ i, 0 ≤ r i ∧ r i < 1) (v : ℕ) :
    ∀ c ∈ consonantDraws r v, c ∈ CONSONANTS.toList := by
  intro c hc
  unfold consonantDraws at hc
  rw [List.mem_map] at hc
  obtain ⟨i, _, rfl⟩ := hc
  refine strIdx_mem _ _ ?_
  exact floorMul_lt (r (1 + v + i)) CONSONANTS.length (hr _).1 (hr _).2 (by decide)

theorem generateLetters_perm (r : ℕ → ℚ) (hr : ∀ i, 0 ≤ r i ∧ r i < 1) :
    (generateLetters r).Perm
      (vowelDraws r (vowelCountOf r) ++ consonantDraws r (vowelCountOf r)) := by
  obtain ⟨hv3, hv5⟩ := vowelCountOf_le r hr
  have hlen0 : (vowelDraws r (vowelCountOf r)
      ++ consonantDraws r (vowelCountOf r)).length = 9 := by
    unfold vowelDraws consonantDraws
    simp only [List.length_append, List.length_map, List.length_range]
    omega
  unfold generateLetters
  exact fisherYates_perm r hr _ _ _ (by rw [hlen0]; omega)

/-- True part of the shape invariant: the generated set always has length 9
and all its characters are uppercase letters of `VOWELS ++ CONSONANTS`. -/
theorem generateLetters_length_mem (r : ℕ → ℚ) (hr : ∀ i, 0 ≤ r i ∧ r i < 1) :
    (generateLetters r).length = 9 ∧
    ∀ c ∈ generateLetters r,
      (c ∈ VOWELS.toList ∨ c ∈ CONSONANTS.toList) ∧ c.isUpper = true := by
  obtain ⟨hv3, hv5⟩ := vowelCountOf_le r hr
  have hperm := generateLetters_perm r hr
  have hlenv : (vowelDraws r (vowelCountOf r)).length = vowelCountOf r := by
    unfold vowelDraws
    simp
  have hlenc : (consonantDraws r (vowelCountOf r)).length = 9 - vowelCountOf r := by
    unfold consonantDraws
    simp
  constructor
  · rw [hperm.length_eq, List.length_append, hlenv, hlenc]
    omega
  · intro c hc
    have hc2 := hperm.mem_iff.mp hc
    rw [List.mem_append] at hc2
    have hmem : c ∈ VOWELS.toList ∨ c ∈ CONSONANTS.toList := by
      rcases hc2 with h | h
      · exact Or.inl (vowelDraws_mem r hr _ c h)
      · exact Or.inr (consonantDraws_mem r hr _ c h)
    exact ⟨hmem, alphabet_upper c hmem⟩

/-- Constant model stream with every draw `1/2`, used by the witnesses. -/
def rHalf : ℕ → ℚ := fun _ => 1/2

theorem rHalf_range : ∀ i, 0 ≤ rHalf i ∧ rHalf i < 1 := by
  intro i
  unfold rHalf
  norm_num

/-- Stream exhibiting the `CONSONANTS` bug: vowel-count draw 0 (so 3 vowel
draws, each picking index 0 = `A`), then six consonant draws of `3/11`
(index 6 into `CONSONANTS`, which is the character `I`), then shuffle
draws 0. All values lie in `[0,1)`. -/
def rBug : ℕ → ℚ := fun i => if 4 ≤ i ∧ i ≤ 9 then mkRat 3 11 else 0

/-- C5: refuted by the code. The string constant `CONSONANTS` of
`server.js` has 22 characters, not 21, and contains the vowel `I`, so the
vowel and consonant alphabets are not a partition; with the legal stream
`rBug` every one of the six consonant draws returns `I` and the generated
set contains nine `AEIOU`-characters, violating the claimed vowel-count
upper bound of 5. -/
theorem generateLetters_vowel_overflow :
    (∀ i, 0 ≤ rBug i ∧ rBug i < 1) ∧
    CONSONANTS.length = 22 ∧
    ('I' ∈ VOWELS.toList ∧ 'I' ∈ CONSONANTS.toList) ∧
    (generateLetters rBug).length = 9 ∧
    5 < (generateLetters rBug).countP isVowelChar := by
  refine ⟨?_, by decide, by decide, by decide, by decide⟩
  intro i
  by_cases h : 4 ≤ i ∧ i ≤ 9 <;> simp [rBug, h, Rat.mkRat_eq_div]
  norm_num

/-- Revision-1 scoring loop of `POST /api/daily-challenge/score` (string
entries): lowercase the word; accept iff it is in the dictionary, formable
from the letters of the day and not already validated; an accepted word adds its
length to the score and joins the validated set (insertion order kept). -/
def scoreLoopRev1 (dict : List String) (letters : List Char) :
    List String → ℕ → List String → ℕ × List String
  | [], score, validated => (score, validated)
  | w :: ws, score, validated =>
    if dict.contains (toLowerStr w) && canMakeWord (toLowerStr w) letters
        && !(validated.contains (toLowerStr w)) then
      scoreLoopRev1 dict letters ws (score + (toLowerStr w).length)
        (validated ++ [toLowerStr w])
    else
      scoreLoopRev1 dict letters ws score validated

/-- Revision-2 scoring loop: identical to revision 1 except for the extra
leading conjunct `lowerCaseWord.length >= 3`. -/
def scoreLoopRev2 (dict : List String) (letters : List Char) :
    List String → ℕ → List String → ℕ × List String
  | [], score, validated => (score, validated)
  | w :: ws, score, validated =>
    if decide (3 ≤ (toLowerStr w).length)
        && dict.contains (toLowerStr w) && canMakeWord (toLowerStr w) letters
        && !(validated.contains (toLowerStr w)) then
      scoreLoopRev2 dict letters ws (score + (toLowerStr w).length)
        (validated ++ [toLowerStr w])
    else
      scoreLoopRev2 dict letters ws score validated

/-- C4: scoring deduplicates case-insensitively and counts each accepted
length of each word once: against a dictionary holding `cat` and `dog` and a
letter set that can form both, the submission `["cat","cat","dog"]` scores
6 in both revisions, the duplicate `cat` contributing nothing. -/
theorem scoring_dedup_example (dict : List String) (letters : List Char)
    (hcat : dict.contains "cat" = true) (hdog : dict.contains "dog" = true)
    (hfc : canMakeWord "cat" letters = true) (hfd : canMakeWord "dog" letters = true) :
    scoreLoopRev1 dict letters ["cat", "cat", "dog"] 0 [] = (6, ["cat", "dog"]) ∧
    scoreLoopRev2 dict letters ["cat", "cat", "dog"] 0 [] = (6, ["cat", "dog"]) := by
  have hlc : toLowerStr "cat" = "cat" := by decide
  have hld : toLowerStr "dog" = "dog" := by decide
  constructor
  · simp only [scoreLoopRev1, hlc, hld, hcat, hdog, hfc, hfd]
    decide
  · simp only [scoreLoopRev2, hlc, hld, hcat, hdog, hfc, hfd]
    decide

/-- Closed instance of C4 at a concrete dictionary and letter set. -/
theorem scoring_dedup_example_witness :
    (["cat", "dog"].contains "cat" = true) ∧
    (["cat", "dog"].contains "dog" = true) ∧
    (canMakeWord "cat" ['C', 'A', 'T', 'D', 'O', 'G', 'X', 'Y', 'Z'] = true) ∧
    (canMakeWord "dog" ['C', 'A', 'T', 'D', 'O', 'G', 'X', 'Y', 'Z'] = true) ∧
    (scoreLoopRev1 ["cat", "dog"] ['C', 'A', 'T', 'D', 'O', 'G', 'X', 'Y', 'Z']
        ["cat", "cat", "dog"] 0 [] = (6, ["cat", "dog"]) ∧
      scoreLoopRev2 ["cat", "dog"] ['C', 'A', 'T', 'D', 'O', 'G', 'X', 'Y', 'Z']
        ["cat", "cat", "dog"] 0 [] = (6, ["cat", "dog"])) :=
  ⟨by decide, by decide, by decide, by decide,
    scoring_dedup_example _ _ (by decide) (by decide) (by decide) (by decide)⟩

/-- C9 counterexample: the two revisions are not equivalent — on the
dictionary word `be` (length 2), formable from the letters, revision 1
scores 2 while revision 2 scores 0 because of its `length >= 3` guard. -/
theorem revision_loops_differ_cex :
    scoreLoopRev1 ["be"] ['B', 'E', 'A', 'O', 'U', 'C', 'D', 'F', 'G'] ["be"] 0 []
      = (2, ["be"]) ∧
    scoreLoopRev2 ["be"] ['B', 'E', 'A', 'O', 'U', 'C', 'D', 'F', 'G'] ["be"] 0 []
      = (0, []) ∧
    scoreLoopRev1 ["be"] ['B', 'E', 'A', 'O', 'U', 'C', 'D', 'F', 'G'] ["be"] 0 []
      ≠ scoreLoopRev2 ["be"] ['B', 'E', 'A', 'O', 'U', 'C', 'D', 'F', 'G'] ["be"] 0 [] := by
  decide

/-- C9 as amended: the scoring loops of the two revisions agree on every
submission all of whose (lowercased) entries have length at least 3 — the
`length >= 3` guard added in revision 2 is the only difference. -/
theorem revision_loops_agree_min_length (dict : List String) (letters : List Char) :
    ∀ (ws : List String) (score : ℕ) (validated : List String),
      (∀ w ∈ ws, 3 ≤ (toLowerStr w).length) →
      scoreLoopRev1 dict letters ws score validated
        = scoreLoopRev2 dict letters ws score validated := by
  intro ws
  induction ws with
  | nil => intro score validated _; rfl
  | cons w ws ih =>
    intro score validated hlen
    have h3 : 3 ≤ (toLowerStr w).length := hlen w (by simp)
    rw [scoreLoopRev1, scoreLoopRev2, decide_eq_true h3, Bool.true_and]
    by_cases hc : (dict.contains (toLowerStr w) && canMakeWord (toLowerStr w) letters
        && !(validated.contains (toLowerStr w))) = true
    · rw [if_pos hc, if_pos hc]
      exact ih _ _ (fun x hx => hlen x (by simp [hx]))
    · rw [if_neg hc, if_neg hc]
      exact ih _ _ (fun x hx => hlen x (by simp [hx]))

/-- Closed instance of the amended C9 at a concrete submission. -/
theorem revision_loops_agree_min_length_witness :
    (∀ w ∈ ["cat", "dog"], 3 ≤ (toLowerStr w).length) ∧
    scoreLoopRev1 ["cat"] ['C', 'A', 'T', 'X', 'Y', 'Z', 'Q', 'U', 'E']
        ["cat", "dog"] 0 []
      = scoreLoopRev2 ["cat"] ['C', 'A', 'T', 'X', 'Y', 'Z', 'Q', 'U', 'E']
        ["cat", "dog"] 0 [] :=
  ⟨by decide,
    revision_loops_agree_min_length ["cat"] ['C', 'A', 'T', 'X', 'Y', 'Z', 'Q', 'U', 'E']
      ["cat", "dog"] 0 [] (by decide)⟩

/-- Modelled from the spec: `DefinitionResolver.resolve`, which is absent
from the code under `src` (no provider chain exists there). The ordered
fallback chain of the spec: try each provider in order; a failure (`none`)
falls through to the next; the first success returns the verdict of that
provider; an exhausted list yields `accepted = false`. -/
def resolverAccepts : List (String → Option Bool) → String → Bool
  | [], _ => false
  | p :: ps, w =>
    match p w with
    | some b => b
    | none => resolverAccepts ps w

/-- Modelled from the spec: per-word acceptance as the spec describes it —
check the dictionary first and, if absent, delegate to the resolver. -/
def specAccepts (dict : List String) (providers : List (String → Option Bool))
    (w : String) : Bool :=
  dict.contains w || resolverAccepts providers w

/-- C6 counterexample: the word `zebra` is absent from the (empty) local
dictionary, is formable from the letters, and the resolver of the spec —
given a provider that accepts it — would accept it, yet both scoring
loops reject it: the code never delegates to any provider chain. -/
theorem dictionary_only_acceptance_cex :
    specAccepts [] [fun w => some (w == "zebra")] "zebra" = true ∧
    canMakeWord "zebra" ['Z', 'E', 'B', 'R', 'A', 'C', 'D', 'F', 'G'] = true ∧
    scoreLoopRev1 [] ['Z', 'E', 'B', 'R', 'A', 'C', 'D', 'F', 'G'] ["zebra"] 0 []
      = (0, []) ∧
    scoreLoopRev2 [] ['Z', 'E', 'B', 'R', 'A', 'C', 'D', 'F', 'G'] ["zebra"] 0 []
      = (0, []) := by
  decide

/-- C6 as amended: a submitted word whose lowercase form is absent from the
local dictionary is rejected outright by both revisions — the loop moves on
exactly as if the entry were not there; no provider is ever consulted. -/
theorem absent_word_rejected (dict : List String) (letters : List Char)
    (w : String) (ws : List String) (score : ℕ) (validated : List String)
    (habs : dict.contains (toLowerStr w) = false) :
    scoreLoopRev1 dict letters (w :: ws) score validated
      = scoreLoopRev1 dict letters ws score validated ∧
    scoreLoopRev2 dict letters (w :: ws) score validated
      = scoreLoopRev2 dict letters ws score validated := by
  constructor
  · rw [scoreLoopRev1, habs]
    simp
  · rw [scoreLoopRev2, habs]
    simp

/-- Closed instance of the amended C6. -/
theorem absent_word_rejected_witness :
    (["cat"].contains (toLowerStr "zebra") = false) ∧
    (scoreLoopRev1 ["cat"] ['Z', 'E', 'B', 'R', 'A', 'C', 'D', 'F', 'G']
        ["zebra"] 0 [] = scoreLoopRev1 ["cat"] ['Z', 'E', 'B', 'R', 'A', 'C', 'D', 'F', 'G'] [] 0 [] ∧
      scoreLoopRev2 ["cat"] ['Z', 'E', 'B', 'R', 'A', 'C', 'D', 'F', 'G']
        ["zebra"] 0 [] = scoreLoopRev2 ["cat"] ['Z', 'E', 'B', 'R', 'A', 'C', 'D', 'F', 'G'] [] 0 []) :=
  ⟨by decide,
    absent_word_rejected ["cat"] ['Z', 'E', 'B', 'R', 'A', 'C', 'D', 'F', 'G']
      "zebra" [] 0 [] (by decide)⟩

/-- Model of a JSON value appearing in `foundWords`: a string, or any
non-string value (number, boolean, null, object — all of which lack a
`toLowerCase` method), identified only by a tag. -/
inductive JsVal where
  | str (s : String)
  | nonStr (tag : ℕ)

/-- Message of the TypeError thrown by `word.toLowerCase()` on a
non-string `word`. -/
def tlcErr : String := "TypeError: word.toLowerCase is not a function"

/-- Revision-1 scoring loop over the raw JSON entries of `foundWords`:
`word.toLowerCase()` throws a TypeError on the first non-string entry,
modelled as `Except.error`; string entries behave as in `scoreLoopRev1`. -/
def scoreLoopRev1Js (dict : List String) (letters : List Char) :
    List JsVal → ℕ → List String → Except String (ℕ × List String)
  | [], score, validated => Except.ok (score, validated)
  | JsVal.nonStr _ :: _, _, _ => Except.error tlcErr
  | JsVal.str w :: ws, score, validated =>
    if dict.contains (toLowerStr w) && canMakeWord (toLowerStr w) letters
        && !(validated.contains (toLowerStr w)) then
      scoreLoopRev1Js dict letters ws (score + (toLowerStr w).length)
        (validated ++ [toLowerStr w])
    else
      scoreLoopRev1Js dict letters ws score validated

/-- Revision-2 scoring loop over raw JSON entries: same TypeError on a
non-string entry (revision 2 also calls `word.toLowerCase()` first). -/
def scoreLoopRev2Js (dict : List String) (letters : List Char) :
    List JsVal → ℕ → List String → Except String (ℕ × List String)
  | [], score, validated => Except.ok (score, validated)
  | JsVal.nonStr _ :: _, _, _ => Except.error tlcErr
  | JsVal.str w :: ws, score, validated =>
    if decide (3 ≤ (toLowerStr w).length)
        && dict.contains (toLowerStr w) && canMakeWord (toLowerStr w) letters
        && !(validated.contains (toLowerStr w)) then
      scoreLoopRev2Js dict letters ws (score + (toLowerStr w).length)
        (validated ++ [toLowerStr w])
    else
      scoreLoopRev2Js dict letters ws score validated

/-- Modelled from the spec: the ScoringEngine step "Skip (silently) any
entry that is not a string", composed with the revision-1 acceptance test —
what the claim says the loop does on non-string entries. -/
def scoreLoopSkip (dict : List String) (letters : List Char) :
    List JsVal → ℕ → List String → ℕ × List String
  | [], score, validated => (score, validated)
  | JsVal.nonStr _ :: ws, score, validated => scoreLoopSkip dict letters ws score validated
  | JsVal.str w :: ws, score, validated =>
    if dict.contains (toLowerStr w) && canMakeWord (toLowerStr w) letters
        && !(validated.contains (toLowerStr w)) then
      scoreLoopSkip dict letters ws (score + (toLowerStr w).length)
        (validated ++ [toLowerStr w])
    else
      scoreLoopSkip dict letters ws score validated

/-- C7 counterexample: on `[123, "cat"]` both revisions throw a TypeError at
the first entry and never process `"cat"`, while the skip-and-continue
behaviour the claim describes would score 3; the loop neither skips the
non-string entry nor reaches the rest of the submission. -/
theorem nonstring_entry_throws_cex :
    scoreLoopRev1Js ["cat"] ['C', 'A', 'T', 'D', 'O', 'G', 'X', 'Y', 'Z']
      [JsVal.nonStr 0, JsVal.str "cat"] 0 [] = Except.error tlcErr ∧
    scoreLoopRev2Js ["cat"] ['C', 'A', 'T', 'D', 'O', 'G', 'X', 'Y', 'Z']
      [JsVal.nonStr 0, JsVal.str "cat"] 0 [] = Except.error tlcErr ∧
    scoreLoopSkip ["cat"] ['C', 'A', 'T', 'D', 'O', 'G', 'X', 'Y', 'Z']
      [JsVal.nonStr 0, JsVal.str "cat"] 0 [] = (3, ["cat"]) := by
  refine ⟨rfl, rfl, by decide⟩

/-- C7 as amended: a submission containing a non-string entry makes the
scoring loop of either revision throw a TypeError at the first such entry —
the preceding string entries are processed, everything after it is not, and
no score is produced. -/
theorem nonstring_entry_aborts (dict : List String) (letters : List Char) :
    ∀ (strs : List String) (tag : ℕ) (rest : List JsVal) (score : ℕ)
      (validated : List String),
      scoreLoopRev1Js dict letters
          (strs.map JsVal.str ++ JsVal.nonStr tag :: rest) score validated
        = Except.error tlcErr ∧
      scoreLoopRev2Js dict letters
          (strs.map JsVal.str ++ JsVal.nonStr tag :: rest) score validated
        = Except.error tlcErr := by
  intro strs
  induction strs with
  | nil => intro tag rest score validated; exact ⟨rfl, rfl⟩
  | cons w ws ih =>
    intro tag rest score validated
    rw [List.map_cons, List.cons_append]
    constructor
    · rw [scoreLoopRev1Js]
      by_cases hc : (dict.contains (toLowerStr w) && canMakeWord (toLowerStr w) letters
          && !(validated.contains (toLowerStr w))) = true
      · rw [if_pos hc]
        exact (ih tag rest _ _).1
      · rw [if_neg hc]
        exact (ih tag rest _ _).1
    · rw [scoreLoopRev2Js]
      by_cases hc : (decide (3 ≤ (toLowerStr w).length)
          && dict.contains (toLowerStr w) && canMakeWord (toLowerStr w) letters
          && !(validated.contains (toLowerStr w))) = true
      · rw [if_pos hc]
        exact (ih tag rest _ _).2
      · rw [if_neg hc]
        exact (ih tag rest _ _).2

/-- Payload validation and scoring of `POST /api/daily-challenge/score`
(revision 1): `if (!name || !Array.isArray(foundWords)) return 400` — the
name must be truthy (for a string: non-empty) and `foundWords` an array
(guaranteed here by its type); no other validation exists. The revision-1
loop then runs on all entries. -/
def scoreHandler (dict : List String) (letters : List Char) (name : String)
    (foundWords : List JsVal) : Except String (ℕ × List String) :=
  if name = "" then Except.error "400 Invalid data."
  else scoreLoopRev1Js dict letters foundWords 0 []

set_option maxRecDepth 8000

/-- C8 counterexample: a 201-word submission sails through payload
validation and is scored in full — 201 copies of `"cat"` produce the
deduplicated score 3 — instead of being rejected wholesale before any
per-word work as the claim states. -/
theorem oversized_submission_scored_cex :
    scoreHandler ["cat"] ['C', 'A', 'T', 'D', 'O', 'G', 'X', 'Y', 'Z'] "alice"
      (List.replicate 201 (JsVal.str "cat")) = Except.ok (3, ["cat"]) := by
  rfl

/-- C8 as amended: no maximum submission size exists — for every truthy
(non-empty) name the handler scores any `foundWords` array whatever its
length, its validation depending only on the name and array-ness. -/
theorem no_size_limit (dict : List String) (letters : List Char)
    (name : String) (foundWords : List JsVal) (hname : ¬ name = "") :
    scoreHandler dict letters name foundWords
      = scoreLoopRev1Js dict letters foundWords 0 [] := by
  rw [scoreHandler, if_neg hname]

/-- Closed instance of the amended C8 at a 201-entry submission. -/
theorem no_size_limit_witness :
    (¬ "alice" = "") ∧
    scoreHandler ["cat"] ['C', 'A', 'T', 'D', 'O', 'G', 'X', 'Y', 'Z'] "alice"
        (List.replicate 201 (JsVal.str "cat"))
      = scoreLoopRev1Js ["cat"] ['C', 'A', 'T', 'D', 'O', 'G', 'X', 'Y', 'Z']
        (List.replicate 201 (JsVal.str "cat")) 0 [] :=
  ⟨by decide,
    no_size_limit ["cat"] ['C', 'A', 'T', 'D', 'O', 'G', 'X', 'Y', 'Z'] "alice"
      (List.replicate 201 (JsVal.str "cat")) (by decide)⟩

/-- Tiny heap of JS arrays, for stating the frame property of
`canMakeWord`: each reference indexes one stored character array. -/
structure Store where
  arrays : List (List Char)

/-- Read the array behind a reference (an absent reference reads as empty;
unreachable in the theorems below, whose references are in range). -/
def readRef (st : Store) (r : ℕ) : List Char := st.arrays.getD r []

/-- Overwrite the array behind a reference. -/
def writeRef (st : Store) (r : ℕ) (v : List Char) : Store := ⟨st.arrays.set r v⟩

/-- Allocate a fresh array (the JS spread copy `[...letters]`), returning
the new store and the fresh reference. -/
def allocRef (st : Store) (v : List Char) : Store × ℕ :=
  (⟨st.arrays ++ [v]⟩, st.arrays.length)

/-- Loop of `canMakeWord` with the heap explicit: each step reads the temp
array and, on a match, writes back the spliced array — only `tempRef` is
ever written. -/
def canMakeWordGoSt (tempRef : ℕ) : List Char → Store → Bool × Store
  | [], st => (true, st)
  | c :: cs, st =>
    if (readRef st tempRef).contains c then
      canMakeWordGoSt tempRef cs (writeRef st tempRef ((readRef st tempRef).erase c))
    else
      (false, st)

/-- Model of `canMakeWord` with the JS heap explicit: copy the letters array into a
fresh `tempLetters` (`let tempLetters = [...letters]`), then run the
consuming loop on the copy. -/
def canMakeWordSt (word : String) (st : Store) (lettersRef : ℕ) : Bool × Store :=
  canMakeWordGoSt (allocRef st (readRef st lettersRef)).2 (upperChars word)
    (allocRef st (readRef st lettersRef)).1

theorem readRef_writeRef_ne (st : Store) (t : ℕ) (v : List Char) (r : ℕ)
    (h : r ≠ t) : readRef (writeRef st t v) r = readRef st r := by
  unfold readRef writeRef
  rw [List.getD_eq_getElem?_getD, List.getD_eq_getElem?_getD,
    List.getElem?_set_ne (fun he => h he.symm)]

theorem readRef_writeRef_self (st : Store) (t : ℕ) (v : List Char)
    (h : t < st.arrays.length) : readRef (writeRef st t v) t = v := by
  unfold readRef writeRef
  rw [List.getD_eq_getElem?_getD, List.getElem?_set_self h]
  rfl

theorem canMakeWordGoSt_spec (tempRef : ℕ) :
    ∀ (cs : List Char) (st : Store), tempRef < st.arrays.length →
      (canMakeWordGoSt tempRef cs st).1 = canMakeWordGo cs (readRef st tempRef) ∧
      ∀ r, r ≠ tempRef →
        readRef (canMakeWordGoSt tempRef cs st).2 r = readRef st r := by
  intro cs
  induction cs with
  | nil => intro st _; exact ⟨rfl, fun r _ => rfl⟩
  | cons c cs ih =>
    intro st hlt
    by_cases hc : (readRef st tempRef).contains c = true
    · have hlen : tempRef < (writeRef st tempRef ((readRef st tempRef).erase c)).arrays.length := by
        unfold writeRef
        simpa using hlt
      have hih := ih (writeRef st tempRef ((readRef st tempRef).erase c)) hlen
      constructor
      · rw [canMakeWordGoSt, if_pos hc, canMakeWordGo, if_pos hc, hih.1,
          readRef_writeRef_self st tempRef _ hlt]
      · intro r hr
        rw [canMakeWordGoSt, if_pos hc, hih.2 r hr,
          readRef_writeRef_ne st tempRef _ r hr]
    · constructor
      · rw [canMakeWordGoSt, if_neg hc, canMakeWordGo, if_neg hc]
      · intro r _
        rw [canMakeWordGoSt, if_neg hc]

/-- C10: `canMakeWord` does not mutate its `letters` argument. The JS body
copies `letters` into a fresh array and splices only the copy, so after the
call the array behind `lettersRef` is exactly what it was before, and the
returned Boolean agrees with the pure `canMakeWord` on the pool read before
the call. -/
theorem canMakeWord_frame (word : String) (st : Store) (lettersRef : ℕ)
    (h : lettersRef < st.arrays.length) :
    readRef (canMakeWordSt word st lettersRef).2 lettersRef = readRef st lettersRef ∧
    (canMakeWordSt word st lettersRef).1 = canMakeWord word (readRef st lettersRef) := by
  have hne : lettersRef ≠ (allocRef st (readRef st lettersRef)).2 := by
    unfold allocRef
    omega
  have hlt : (allocRef st (readRef st lettersRef)).2
      < ((allocRef st (readRef st lettersRef)).1).arrays.length := by
    unfold allocRef
    simp
  have hspec := canMakeWordGoSt_spec (allocRef st (readRef st lettersRef)).2
    (upperChars word) (allocRef st (readRef st lettersRef)).1 hlt
  have hread : readRef (allocRef st (readRef st lettersRef)).1 lettersRef
      = readRef st lettersRef := by
    unfold allocRef readRef
    exact List.getD_append _ _ _ _ h
  have hreadTemp : readRef (allocRef st (readRef st lettersRef)).1
      (allocRef st (readRef st lettersRef)).2 = readRef st lettersRef := by
    unfold allocRef readRef
    rw [List.getD_append_right _ _ _ _ (Nat.le_refl _)]
    simp
  constructor
  · rw [canMakeWordSt, hspec.2 lettersRef hne, hread]
  · rw [canMakeWordSt, hspec.1, hreadTemp]
    rfl

/-- Closed instance of C10 at a one-array store. -/
theorem canMakeWord_frame_witness :
    (0 < (Store.mk [['B', 'E', 'E']]).arrays.length) ∧
    readRef (canMakeWordSt "bee" (Store.mk [['B', 'E', 'E']]) 0).2 0
      = readRef (Store.mk [['B', 'E', 'E']]) 0 ∧
    (canMakeWordSt "bee" (Store.mk [['B', 'E', 'E']]) 0).1
      = canMakeWord "bee" (readRef (Store.mk [['B', 'E', 'E']]) 0) :=
  ⟨by decide,
    (canMakeWord_frame "bee" (Store.mk [['B', 'E', 'E']]) 0 (by decide)).1,
    (canMakeWord_frame "bee" (Store.mk [['B', 'E', 'E']]) 0 (by decide)).2⟩

end WordStack
